import Mathlib

/-!
Verification of `scripts/release.sh` (ShellDeck release pipeline).

Shell strings are modelled as `List Char`; a text file is a `List (List Char)`
of its lines.  Each definition below embeds the corresponding fragment of the
shell script; theorems at the end of the file settle the specification claims.
-/

/-- Boolean test that `p` is a prefix of `l` (models `grep -q ⌃pat` line anchoring
and bash `=~ ⌃pat` matching on a literal pattern). -/
def startsWithSeq : List Char → List Char → Bool
  | [], _ => true
  | _ :: _, [] => false
  | p :: ps, c :: cs => p = c && startsWithSeq ps cs

/-- Boolean test that `n` occurs as a contiguous substring of `h`
(models `grep -qF needle` applied to a single line). -/
def substrOf : List Char → List Char → Bool
  | n, [] => startsWithSeq n []
  | n, c :: t => startsWithSeq n (c :: t) || substrOf n t

/-- Split a character list at every occurrence of `sep`; models field splitting
(`IFS='.' read`) and the segment structure used by the `sed` quote extraction. -/
def splitOnChar (sep : Char) : List Char → List (List Char)
  | [] => [[]]
  | c :: rest =>
    if c = sep then [] :: splitOnChar sep rest
    else
      match splitOnChar sep rest with
      | [] => [[c]]
      | f :: fs => (c :: f) :: fs

/-- Rejoin fields with `.` separators (the remainder field of `IFS='.' read`,
which keeps intervening separators in the last variable). -/
def joinDots : List (List Char) → List Char
  | [] => []
  | [x] => x
  | x :: xs => x ++ '.' :: joinDots xs

/-- Decimal digit character for a digit value (shell arithmetic prints decimal). -/
def digitChar (d : Nat) : Char := Char.ofNat (48 + d)

/-- Decimal rendering of a natural number, as the shell prints `$((...))`. -/
def natDigits (n : Nat) : List Char :=
  if n = 0 then ['0'] else ((Nat.digits 10 n).map digitChar).reverse

/-- Numeric value of a digit character. -/
def digitVal (c : Char) : Nat := c.toNat - 48

/-- Value of a digit string read as decimal. -/
def decVal (cs : List Char) : Nat := cs.foldl (fun a c => 10 * a + digitVal c) 0

/-- Value of a digit string read as octal (bash treats a leading `0` as octal). -/
def octVal (cs : List Char) : Nat := cs.foldl (fun a c => 8 * a + digitVal c) 0

/-- First character of a shell identifier. -/
def isIdentStartChar (c : Char) : Bool := c.isAlpha || c == '_'

/-- Subsequent character of a shell identifier. -/
def isIdentTailChar (c : Char) : Bool := c.isAlphanum || c == '_'

/-- Boolean test that a word is a shell identifier. -/
def isIdentSeq : List Char → Bool
  | [] => false
  | c :: cs => isIdentStartChar c && cs.all isIdentTailChar

/-- Models bash arithmetic evaluation `$((w + 1))` of the word `w` held in a
variable: an empty word evaluates to 0, a decimal numeral to its value, a
numeral with a leading zero as octal (failing on digits 8/9), an identifier to
the value of that (unset) variable, hence 0; anything else is an arithmetic
error, which aborts the script under `set -e`.  Returns the evaluated value. -/
def bashArith (cs : List Char) : Option Nat :=
  if cs = [] then some 0
  else if cs.all Char.isDigit then
    if 1 < cs.length ∧ cs.head? = some '0' then
      if cs.all fun c => digitVal c < 8 then some (octVal cs) else none
    else some (decVal cs)
  else if isIdentSeq cs then some 0
  else none

/-- Models `current_version()`: `grep '⌃version' Cargo.toml | head -1 |
sed 's/.*"\(.*\)".*/\1/'`.  `grep '⌃version'` keeps the lines having `version`
as a literal prefix; `head -1` takes the first; the greedy `sed` capture
extracts the text between the last two double quotes of that line (a line with
fewer than two quotes is passed through unchanged); no matching line yields
empty output. -/
def sedExtract (l : List Char) : List Char :=
  let segs := splitOnChar '"' l
  if 3 ≤ segs.length then segs.getD (segs.length - 2) [] else l

/-- The `version`-prefixed lines of the manifest (output of `grep '⌃version'`). -/
def grepVersionLines (m : List (List Char)) : List (List Char) :=
  m.filter fun l => startsWithSeq ("version".toList) l

/-- Models `current_version()` applied to the manifest lines. -/
def current_version (m : List (List Char)) : List Char :=
  match grepVersionLines m with
  | [] => []
  | l :: _ => sedExtract l

/-- The three bump kinds accepted by the release command. -/
inductive BumpType
  | patch
  | minor
  | major
deriving DecidableEq

/-- Models `IFS='.' read -r MAJOR MINOR PATCH <<< "$CURRENT_VERSION"`: the
first two fields go to MAJOR and MINOR, the remainder (dots included) to PATCH;
missing fields are empty. -/
def fieldsOf : List (List Char) → List Char × List Char × List Char
  | [] => ([], [], [])
  | [a] => (a, [], [])
  | [a, b] => (a, b, [])
  | a :: b :: rest => (a, b, joinDots rest)

/-- Field assignment applied to the split of the version string. -/
def readFields (s : List Char) : List Char × List Char × List Char :=
  fieldsOf (splitOnChar '.' s)

/-- Models the `case "$BUMP_TYPE"` arithmetic on the three fields:
patch increments PATCH; minor increments MINOR and sets PATCH to `0`;
major increments MAJOR and sets MINOR and PATCH to `0`.  `none` when the
arithmetic errors (script aborts under `set -e`). -/
def bumpFields (k : BumpType) (f : List Char × List Char × List Char) :
    Option (List Char × List Char × List Char) :=
  match k, f with
  | .patch, (a, b, c) => (bashArith c).map fun p => (a, b, natDigits (p + 1))
  | .minor, (a, b, _) => (bashArith b).map fun n => (a, natDigits (n + 1), ['0'])
  | .major, (a, _, _) => (bashArith a).map fun m => (natDigits (m + 1), ['0'], ['0'])

/-- Models `NEW_VERSION="${MAJOR}.${MINOR}.${PATCH}"`. -/
def newVersionString (f : List Char × List Char × List Char) : List Char :=
  f.1 ++ ('.' :: (f.2.1 ++ ('.' :: f.2.2)))

/-- The bump operation on a version string: split into fields, apply the case
arm, rejoin.  Embeds lines 384–392 of the script. -/
def bump (k : BumpType) (s : List Char) : Option (List Char) :=
  (bumpFields k (readFields s)).map newVersionString

/-- Outcome of the version-read/bump stage of the release command. -/
inductive VersionStage
  | aborted
  | proceeded (newVersion : List Char)
deriving DecidableEq

/-- Models the release command from `CURRENT_VERSION=$(current_version)`
through `NEW_VERSION`: abort when the extracted version is empty
(`die "Could not read version..."`) or when the bump arithmetic errors;
otherwise proceed with the bumped version string. -/
def releaseVersionStage (m : List (List Char)) (k : BumpType) : VersionStage :=
  let cur := current_version m
  if cur = [] then .aborted
  else
    match bump k cur with
    | none => .aborted
    | some nv => .proceeded nv

/-- Canonical dotted version string `X.Y.Z` built from three numbers. -/
def verStr (x y z : Nat) : List Char :=
  natDigits x ++ ('.' :: (natDigits y ++ ('.' :: natDigits z)))

/-- Boolean test that a string is a dotted triple of numerals. -/
def isDottedNumeric (s : List Char) : Bool :=
  match splitOnChar '.' s with
  | [a, b, c] => !a.isEmpty && a.all Char.isDigit
      && !b.isEmpty && b.all Char.isDigit && !c.isEmpty && c.all Char.isDigit
  | _ => false

theorem splitOnChar_eq_singleton {sep : Char} {a : List Char} (h : sep ∉ a) :
    splitOnChar sep a = [a] := by
  induction a with
  | nil => rfl
  | cons c cs ih =>
    have hc : ¬ c = sep := fun hcs => h (hcs ▸ List.mem_cons_self c cs)
    have ih' := ih (fun hm => h (List.mem_cons_of_mem c hm))
    simp [splitOnChar, hc, ih']

theorem splitOnChar_append_cons {sep : Char} {a : List Char} (t : List Char)
    (h : sep ∉ a) : splitOnChar sep (a ++ sep :: t) = a :: splitOnChar sep t := by
  induction a with
  | nil => simp [splitOnChar]
  | cons c cs ih =>
    have hc : ¬ c = sep := fun hcs => h (hcs ▸ List.mem_cons_self c cs)
    have ih' := ih (fun hm => h (List.mem_cons_of_mem c hm))
    simp only [List.cons_append, splitOnChar, hc, if_false, List.append_eq, ih']

theorem digitChar_isDigit {d : Nat} (h : d < 10) : (digitChar d).isDigit = true := by
  interval_cases d <;> decide

theorem digitChar_ne_quoteZero {d : Nat} (h : d < 10) (h0 : d ≠ 0) :
    digitChar d ≠ '0' := by
  interval_cases d <;> simp_all <;> decide

theorem digitVal_digitChar {d : Nat} (h : d < 10) : digitVal (digitChar d) = d := by
  interval_cases d <;> decide

theorem natDigits_all_digit (n : Nat) : (natDigits n).all Char.isDigit = true := by
  unfold natDigits
  split
  · decide
  · rw [List.all_eq_true]
    intro c hc
    rw [List.mem_reverse, List.mem_map] at hc
    obtain ⟨d, hd, rfl⟩ := hc
    exact digitChar_isDigit (Nat.digits_lt_base (by norm_num) hd)

theorem natDigits_ne_nil (n : Nat) : natDigits n ≠ [] := by
  unfold natDigits
  split
  · simp
  · rw [← List.length_pos, List.length_reverse, List.length_map,
      List.length_pos]
    simpa [Nat.digits_ne_nil_iff_ne_zero] using (by assumption : ¬ n = 0)

theorem dot_not_mem_natDigits (n : Nat) : '.' ∉ natDigits n := by
  intro hm
  have h := natDigits_all_digit n
  rw [List.all_eq_true] at h
  have := h _ hm
  simp [Char.isDigit] at this

theorem natDigits_head_ne_zero {n : Nat} (hn : n ≠ 0) :
    (natDigits n).head? ≠ some '0' := by
  unfold natDigits
  rw [if_neg hn, ← List.map_reverse, List.head?_map, List.head?_reverse]
  have hdig : Nat.digits 10 n ≠ [] := by
    simpa [Nat.digits_ne_nil_iff_ne_zero] using hn
  rw [List.getLast?_eq_getLast _ hdig]
  intro hcontra
  have hlast := Nat.getLast_digit_ne_zero 10 hn
  have hmem : (Nat.digits 10 n).getLast hdig ∈ Nat.digits 10 n :=
    List.getLast_mem hdig
  have hlt : (Nat.digits 10 n).getLast hdig < 10 :=
    Nat.digits_lt_base (by norm_num) hmem
  exact digitChar_ne_quoteZero hlt hlast (by simpa using hcontra)

theorem decVal_reverse_map {l : List Nat} (h : ∀ d ∈ l, d < 10) :
    decVal ((l.map digitChar).reverse) = Nat.ofDigits 10 l := by
  induction l with
  | nil => simp [decVal, Nat.ofDigits]
  | cons d ds ih =>
    have hd : d < 10 := h d (List.mem_cons_self d ds)
    have ih' := ih (fun x hx => h x (List.mem_cons_of_mem d hx))
    simp only [List.map_cons, List.reverse_cons]
    unfold decVal at ih' ⊢
    rw [List.foldl_append]
    simp only [List.foldl_cons, List.foldl_nil, ih', Nat.ofDigits_cons,
      digitVal_digitChar hd]
    ring

theorem bashArith_natDigits (n : Nat) : bashArith (natDigits n) = some n := by
  by_cases hn : n = 0
  · subst hn; decide
  · unfold bashArith
    rw [if_neg (natDigits_ne_nil n), if_pos (natDigits_all_digit n),
      if_neg (fun hcontra => natDigits_head_ne_zero hn hcontra.2)]
    unfold natDigits
    rw [if_neg hn,
      decVal_reverse_map (fun d hd => Nat.digits_lt_base (by norm_num) hd),
      Nat.ofDigits_digits]

theorem splitOnChar_verStr (x y z : Nat) :
    splitOnChar '.' (verStr x y z) = [natDigits x, natDigits y, natDigits z] := by
  unfold verStr
  rw [splitOnChar_append_cons _ (dot_not_mem_natDigits x),
    splitOnChar_append_cons _ (dot_not_mem_natDigits y),
    splitOnChar_eq_singleton (dot_not_mem_natDigits z)]

theorem readFields_verStr (x y z : Nat) :
    readFields (verStr x y z) = (natDigits x, natDigits y, natDigits z) := by
  unfold readFields
  rw [splitOnChar_verStr]
  rfl

/-- C1: for every valid semantic version `X.Y.Z`, the bump operation of the
release command returns exactly `X.Y.(Z+1)` for kind patch, `X.(Y+1).0` for
kind minor, and `(X+1).0.0` for kind major. -/
theorem bump_semver (x y z : Nat) :
    bump .patch (verStr x y z) = some (verStr x y (z + 1)) ∧
    bump .minor (verStr x y z) = some (verStr x (y + 1) 0) ∧
    bump .major (verStr x y z) = some (verStr (x + 1) 0 0) := by
  unfold bump
  rw [readFields_verStr]
  refine ⟨?_, ?_, ?_⟩ <;>
    simp only [bumpFields, bashArith_natDigits, Option.map_some'] <;> rfl

/-- C6 counterexample: it is not the case that every manifest whose version
field is missing or not a dotted numeric triple makes the release command
abort.  The manifest `version = "abc"` extracts the nonempty, non-numeric
string `abc`, and the release proceeds to bump it (to `abc..1`). -/
theorem versionstore_read_invalid_counterexample :
    ¬ (∀ (m : List (List Char)) (k : BumpType),
        (current_version m = [] ∨ isDottedNumeric (current_version m) = false) →
        releaseVersionStage m k = .aborted) := by
  intro h
  have h2 := h ["version = \"abc\"".toList] .patch (Or.inr (by decide))
  revert h2
  decide

/-- C6 (amended): when the manifest's version field is absent (no line starts
with `version`), the extraction is empty and the release command aborts
instead of proceeding with a bump. -/
theorem versionstore_read_absent_aborts (m : List (List Char)) (k : BumpType)
    (h : ∀ l ∈ m, startsWithSeq ("version".toList) l = false) :
    releaseVersionStage m k = .aborted := by
  have hg : grepVersionLines m = [] := by
    unfold grepVersionLines
    rw [List.filter_eq_nil_iff]
    intro a ha
    have h2 : startsWithSeq ['v', 'e', 'r', 's', 'i', 'o', 'n'] a = false := h a ha
    simp [h2]
  have hc : current_version m = [] := by
    unfold current_version
    rw [hg]
  unfold releaseVersionStage
  simp [hc]

theorem versionstore_read_absent_aborts_witness :
    (∀ l ∈ (["name = \"shelldeck\"".toList] : List (List Char)),
      startsWithSeq ("version".toList) l = false) ∧
    releaseVersionStage ["name = \"shelldeck\"".toList] BumpType.patch =
      VersionStage.aborted :=
  ⟨by decide, versionstore_read_absent_aborts _ _ (by decide)⟩

/-- The literal prefix `version = "` of the sed substitution pattern. -/
def verLinePre : List Char := "version = \"".toList

/-- One pattern character against one text character: in the sed basic regex,
`.` matches any character and every other character of a version string
matches literally (version strings contain no other regex metacharacters). -/
def patCharMatch (p c : Char) : Bool := p == '.' || p == c

/-- Fixed-length pattern match of the interpolated current version. -/
def patMatch : List Char → List Char → Bool
  | [], [] => true
  | [], _ :: _ => false
  | _ :: _, [] => false
  | p :: ps, c :: cs => patCharMatch p c && patMatch ps cs

/-- Does a line match `⌃version = "$CURRENT_VERSION"` in the sense of
`sed "s/⌃version = \"$CURRENT_VERSION\"/..."`: literal prefix `version = "`,
then `CURRENT_VERSION` as a pattern (its dots are wildcards), then `"`. -/
def versionLineMatch (cur line : List Char) : Bool :=
  startsWithSeq verLinePre line &&
  patMatch cur ((line.drop verLinePre.length).take cur.length) &&
  ((line.drop (verLinePre.length + cur.length)).head? == some '"')

/-- Models the per-line effect of
`sed -i "s/⌃version = \"$CURRENT_VERSION\"/version = \"$NEW_VERSION\"/"`:
a matching line has its matched prefix replaced (the text after the closing
quote is kept); a non-matching line is passed through unchanged.  Every
matching line of the file is rewritten. -/
def sedSubstLine (cur newv line : List Char) : List Char :=
  if versionLineMatch cur line then
    verLinePre ++ newv ++ '"' :: line.drop (verLinePre.length + cur.length + 1)
  else line

/-- Models the whole-file effect of the `sed -i` version rewrite (line 449). -/
def writeVersion (cur newv : List Char) (m : List (List Char)) : List (List Char) :=
  m.map (sedSubstLine cur newv)

theorem patMatch_length {p c : List Char} (h : patMatch p c = true) :
    p.length = c.length := by
  induction p generalizing c with
  | nil => cases c with
    | nil => rfl
    | cons x xs => simp [patMatch] at h
  | cons a as ih =>
    cases c with
    | nil => simp [patMatch] at h
    | cons x xs =>
      simp only [patMatch, Bool.and_eq_true] at h
      simp [ih h.2]

theorem startsWithSeq_append_self (p t : List Char) :
    startsWithSeq p (p ++ t) = true := by
  induction p with
  | nil => rfl
  | cons a as ih => simp [startsWithSeq, ih]

theorem versionLineMatch_decompose {cur w : List Char} (rest : List Char)
    (hw : patMatch cur w = true) :
    versionLineMatch cur (verLinePre ++ (w ++ '"' :: rest)) = true := by
  have hlen : cur.length = w.length := patMatch_length hw
  unfold versionLineMatch
  rw [startsWithSeq_append_self, List.drop_left, hlen, List.take_left,
    show verLinePre ++ (w ++ '"' :: rest) = (verLinePre ++ w) ++ '"' :: rest by
      simp [List.append_assoc],
    List.drop_left' (by simp), hw]
  rfl

theorem sedSubstLine_match {cur w : List Char} (newv rest : List Char)
    (hw : patMatch cur w = true) :
    sedSubstLine cur newv (verLinePre ++ (w ++ '"' :: rest)) =
      verLinePre ++ (newv ++ '"' :: rest) := by
  have hlen : cur.length = w.length := patMatch_length hw
  unfold sedSubstLine
  rw [if_pos (versionLineMatch_decompose rest hw), hlen,
    show verLinePre ++ (w ++ '"' :: rest) = (verLinePre ++ (w ++ ['"'])) ++ rest by
      simp [List.append_assoc],
    List.drop_left' (by simp [Nat.add_assoc])]
  rfl

theorem sedSubstLine_nonmatch {cur line : List Char} (newv : List Char)
    (h : versionLineMatch cur line = false) :
    sedSubstLine cur newv line = line := by
  simp [sedSubstLine, h]

/-- C8 counterexample: the `sed -i` rewrite is applied to every matching line,
not only to the version field.  A manifest with a second line equal to the
version-field line (for instance a dependency pinned at the same version) has
both lines rewritten, so the file does not differ from its previous state only
at the version field. -/
theorem write_version_only_field_counterexample :
    ¬ (∀ (m : List (List Char)) (cur newv : List Char),
        cur ≠ [] → newv ≠ cur → current_version m = cur →
        ∀ i, i ≠ m.findIdx (fun l => startsWithSeq ("version".toList) l) →
        (writeVersion cur newv m).get? i = m.get? i) := by
  intro h
  have h2 := h ["version = \"1.2.3\"".toList, "version = \"1.2.3\"".toList]
    "1.2.3".toList "1.2.4".toList (by decide) (by decide) (by decide) 1 (by decide)
  revert h2
  decide

/-- C8 (amended): the version write rewrites exactly the lines matching the
`sed` pattern `⌃version = "$CURRENT_VERSION"`.  When the version-field line is
the unique matching line of the manifest, the manifest after the write differs
from the manifest before it exactly at that line — whose quoted value is
replaced by the new version, the remainder of the line kept — and every other
line is preserved byte-for-byte. -/
theorem write_version_unique_match (pre post : List (List Char))
    (cur newv l : List Char)
    (hpre : ∀ x ∈ pre, versionLineMatch cur x = false)
    (hpost : ∀ x ∈ post, versionLineMatch cur x = false)
    (hl : versionLineMatch cur l = true) :
    writeVersion cur newv (pre ++ l :: post) =
      pre ++ (verLinePre ++
        (newv ++ '"' :: l.drop (verLinePre.length + cur.length + 1))) :: post := by
  unfold writeVersion
  rw [List.map_append, List.map_cons]
  have hp : pre.map (sedSubstLine cur newv) = pre :=
    (List.map_congr_left fun x hx => sedSubstLine_nonmatch newv (hpre x hx)).trans
      (List.map_id pre)
  have hq : post.map (sedSubstLine cur newv) = post :=
    (List.map_congr_left fun x hx => sedSubstLine_nonmatch newv (hpost x hx)).trans
      (List.map_id post)
  rw [hp, hq]
  congr 1
  simp [sedSubstLine, hl]

theorem write_version_unique_match_witness :
    writeVersion "1.2.3".toList "1.2.4".toList
      ["name = \"shelldeck\"".toList, "version = \"1.2.3\"".toList,
        "edition = \"2021\"".toList] =
      ["name = \"shelldeck\"".toList, "version = \"1.2.4\"".toList,
        "edition = \"2021\"".toList] := by
  have h := write_version_unique_match ["name = \"shelldeck\"".toList]
    ["edition = \"2021\"".toList] "1.2.3".toList "1.2.4".toList
    "version = \"1.2.3\"".toList (by decide) (by decide) (by decide)
  exact h.trans (by decide)

/-- Contents of the tracked working files: the manifest, its lockfile, and the
remaining tracked files as a name–content association. -/
structure TreeState where
  cargoToml : List (List Char)
  cargoLock : List (List Char)
  others : List (List Char × List (List Char))
deriving DecidableEq

/-- Local repository state: working tree, index, the tree of HEAD, local tags,
the `origin/main` remote-tracking ref (a commit hash, `none` when absent), the
HEAD commit hash, and the current branch name. -/
structure RepoState where
  tree : TreeState
  index : TreeState
  headTree : TreeState
  localTags : List String
  originMain : Option Nat
  headCommit : Nat
  branch : String
deriving DecidableEq

/-- State of the `origin` remote: its tags and the hash of its `main` branch
(the model assumes the remote is reachable and `main` exists there). -/
structure RemoteState where
  tags : List String
  mainHash : Nat
deriving DecidableEq

/-- Models `git fetch --tags --quiet`: all remote tags not yet present are
added to the local tag namespace, and the remote-tracking ref is updated. -/
def fetchTags (s : RepoState) (r : RemoteState) : RepoState :=
  { s with
    localTags := s.localTags ++ r.tags.filter (fun t => !(s.localTags.contains t)),
    originMain := some r.mainHash }

/-- Models `git fetch --quiet`: the remote-tracking ref is updated. -/
def gitFetch (s : RepoState) (r : RemoteState) : RepoState :=
  { s with originMain := some r.mainHash }

/-- Outcome of the preflight validation stage. -/
inductive PreflightOutcome
  | ok
  | failDirty
  | failStaged
  | failLocalTag
  | failRemoteTag
  | branchDeclined
  | failDiverged
deriving DecidableEq

/-- Models the safety-check block of the release command (lines 406–444), in
source order: dirty-tree check excluding the manifest and lockfile
(`git diff --quiet -- :!Cargo.toml :!Cargo.lock`), staged-changes check
(`git diff --cached --quiet`), local-tag check, `git fetch --tags`, remote-tag
check via `git ls-remote` (a direct remote query), interactive branch check
(declining exits), `git fetch`, and the divergence check (`merge-base` is
passed in as the ancestry oracle).  Returns the outcome together with the
repository state as left behind. -/
def preflight (s : RepoState) (r : RemoteState) (tag : String)
    (confirmBranch : Bool) (mergeBase : Nat → Nat → Option Nat) :
    PreflightOutcome × RepoState :=
  if s.tree.others ≠ s.index.others then (.failDirty, s)
  else if s.index ≠ s.headTree then (.failStaged, s)
  else if tag ∈ s.localTags then (.failLocalTag, s)
  else
    let s1 := fetchTags s r
    if tag ∈ r.tags then (.failRemoteTag, s1)
    else if s.branch ≠ "main" ∧ confirmBranch = false then (.branchDeclined, s1)
    else
      let s2 := gitFetch s1 r
      if s.headCommit ≠ r.mainHash ∧ mergeBase s.headCommit r.mainHash ≠ some s.headCommit
      then (.failDiverged, s2)
      else (.ok, s2)

/-- C3 counterexample: preflight is not free of side effects on the local
repository.  With a clean local state and a remote carrying the tag `v0.1.2`,
the run fails the remote-tag check, but the preceding `git fetch --tags` has
already added that tag to the local tag namespace: the final state differs
from the initial one. -/
theorem preflight_no_side_effect_counterexample :
    ¬ (∀ (s : RepoState) (r : RemoteState) (tag : String) (cb : Bool)
        (mb : Nat → Nat → Option Nat),
        (preflight s r tag cb mb).1 ≠ .ok → (preflight s r tag cb mb).2 = s) := by
  intro h
  have h2 := h
    ⟨⟨[], [], []⟩, ⟨[], [], []⟩, ⟨[], [], []⟩, [], some 5, 5, "main"⟩
    ⟨["v0.1.2"], 5⟩ "v0.1.2" true (fun _ _ => none) (by decide)
  revert h2
  decide

/-- C3 (amended): a release run that fails at or before the end of preflight
leaves the working tree, the index, the HEAD tree and commit, and the current
branch exactly as they were; only the refs updated by the two fetches (the
local tag namespace and the `origin/main` remote-tracking ref) may change. -/
theorem preflight_failure_preserves_tree_and_index (s : RepoState)
    (r : RemoteState) (tag : String) (cb : Bool)
    (mb : Nat → Nat → Option Nat)
    (h : (preflight s r tag cb mb).1 ≠ .ok) :
    (preflight s r tag cb mb).2.tree = s.tree ∧
    (preflight s r tag cb mb).2.index = s.index ∧
    (preflight s r tag cb mb).2.headTree = s.headTree ∧
    (preflight s r tag cb mb).2.headCommit = s.headCommit ∧
    (preflight s r tag cb mb).2.branch = s.branch := by
  unfold preflight fetchTags gitFetch
  split_ifs <;> simp_all

theorem preflight_failure_preserves_tree_and_index_witness :
    (preflight
      ⟨⟨[], [], [(['a'], [])]⟩, ⟨[], [], []⟩, ⟨[], [], []⟩, [], none, 0, "main"⟩
      ⟨[], 0⟩ "v0.1.2" true (fun _ _ => none)).1 ≠ PreflightOutcome.ok ∧
    (preflight
      ⟨⟨[], [], [(['a'], [])]⟩, ⟨[], [], []⟩, ⟨[], [], []⟩, [], none, 0, "main"⟩
      ⟨[], 0⟩ "v0.1.2" true (fun _ _ => none)).2.tree =
      ⟨[], [], [(['a'], [])]⟩ :=
  ⟨by decide,
    (preflight_failure_preserves_tree_and_index
      ⟨⟨[], [], [(['a'], [])]⟩, ⟨[], [], []⟩, ⟨[], [], []⟩, [], none, 0, "main"⟩
      ⟨[], 0⟩ "v0.1.2" true (fun _ _ => none) (by decide)).1⟩

/-- Models the working-tree effect of the release path from the version
rewrite to a declined final confirmation (lines 448–489): the `sed -i`
rewrites the manifest in the working tree, `cargo check` may regenerate the
lockfile (its resulting content is the `lockAfterCheck` parameter), and the
declined confirmation runs `git checkout -- Cargo.toml Cargo.lock`, which
restores both files from the index (the lockfile is assumed tracked).  Other
working-tree files are untouched. -/
def declinedReleaseTree (s : RepoState) (cur newv : List Char)
    (lockAfterCheck : List (List Char)) : TreeState :=
  let wt1 : TreeState := { s.tree with cargoToml := writeVersion cur newv s.tree.cargoToml }
  let wt2 : TreeState := { wt1 with cargoLock := lockAfterCheck }
  { wt2 with cargoToml := s.index.cargoToml, cargoLock := s.index.cargoLock }

/-- C2 counterexample: the revert does not restore the pre-invocation working
tree for every state passing preflight.  Preflight excludes the manifest and
lockfile from its dirty-tree check, so the manifest may hold uncommitted edits
at invocation; the declined-confirmation `git checkout` then restores the
index copy, not the pre-invocation working copy. -/
theorem decline_revert_counterexample :
    ¬ (∀ (s : RepoState) (cur newv : List Char) (lock : List (List Char)),
        s.tree.others = s.index.others → s.index = s.headTree →
        declinedReleaseTree s cur newv lock = s.tree) := by
  intro h
  have h2 := h
    ⟨⟨["version = \"1.2.3\"".toList, "extra = true".toList], [], []⟩,
      ⟨["version = \"1.2.3\"".toList], [], []⟩,
      ⟨["version = \"1.2.3\"".toList], [], []⟩, [], none, 0, "main"⟩
    "1.2.3".toList "1.2.4".toList [] rfl rfl
  revert h2
  decide

/-- C2 (amended): if, in addition to the preflight checks, the manifest and
lockfile working copies match the index at invocation (they carry no
uncommitted edits), then declining the final confirmation leaves the working
tree byte-identical to its pre-invocation state. -/
theorem decline_revert_restores_tree (s : RepoState) (cur newv : List Char)
    (lock : List (List Char))
    (htoml : s.tree.cargoToml = s.index.cargoToml)
    (hlock : s.tree.cargoLock = s.index.cargoLock) :
    declinedReleaseTree s cur newv lock = s.tree := by
  have h : declinedReleaseTree s cur newv lock =
      ⟨s.index.cargoToml, s.index.cargoLock, s.tree.others⟩ := rfl
  rw [h, ← htoml, ← hlock]

theorem decline_revert_restores_tree_witness :
    declinedReleaseTree
      ⟨⟨["version = \"1.2.3\"".toList], [], []⟩,
        ⟨["version = \"1.2.3\"".toList], [], []⟩,
        ⟨["version = \"1.2.3\"".toList], [], []⟩, [], none, 0, "main"⟩
      "1.2.3".toList "1.2.4".toList [] =
      ⟨["version = \"1.2.3\"".toList], [], []⟩ :=
  decline_revert_restores_tree
    ⟨⟨["version = \"1.2.3\"".toList], [], []⟩,
      ⟨["version = \"1.2.3\"".toList], [], []⟩,
      ⟨["version = \"1.2.3\"".toList], [], []⟩, [], none, 0, "main"⟩
    "1.2.3".toList "1.2.4".toList [] rfl rfl

/-- The five git steps of the commit/tag/push block (lines 494–500). -/
inductive GitStep
  | add
  | commit
  | tag
  | push
  | pushTag
deriving DecidableEq

/-- Run a sequence of fallible commands under `set -e`: each attempted step is
recorded in the trace; the first failing step ends the run with failure. -/
def runSteps : List (GitStep × Bool) → List GitStep × Bool
  | [] => ([], true)
  | (st, ok) :: rest =>
    if ok then
      let r := runSteps rest
      (st :: r.1, r.2)
    else ([st], false)

/-- Models the transaction block: `git add Cargo.toml Cargo.lock`,
`git commit -m "$COMMIT_MSG"`, `git tag "$TAG"`, `git push`,
`git push origin "$TAG"`, in source order, each step's success given by a
flag. -/
def releaseTransaction (okAdd okCommit okTag okPush okPushTag : Bool) :
    List GitStep × Bool :=
  runSteps [(.add, okAdd), (.commit, okCommit), (.tag, okTag),
    (.push, okPush), (.pushTag, okPushTag)]

/-- C5: in every successful release run the transaction steps occur in the
strict order stage → commit → tag → push branch → push tag; in particular the
tag push never precedes the branch push. -/
theorem transaction_order (a c t p q : Bool)
    (h : (releaseTransaction a c t p q).2 = true) :
    (releaseTransaction a c t p q).1 =
      [.add, .commit, .tag, .push, .pushTag] := by
  cases a <;> cases c <;> cases t <;> cases p <;> cases q <;> revert h <;> decide

theorem transaction_order_witness :
    (releaseTransaction true true true true true).2 = true ∧
    (releaseTransaction true true true true true).1 =
      [GitStep.add, GitStep.commit, GitStep.tag, GitStep.push, GitStep.pushTag] :=
  ⟨by decide, transaction_order true true true true true (by decide)⟩

/-- Boolean test for the bash regex `⌃v[0-9]`: first character `v`, second a
digit. -/
def vDigitMatch : List Char → Bool
  | c :: d :: _ => c == 'v' && d.isDigit
  | _ => false

/-- Models the commit-message block (lines 470–478): an empty reply yields the
default `"$TAG: "`; a message not matching `⌃v[0-9]` gets `"$TAG: "`
prepended. -/
def commitMessage (tag userMsg : List Char) : List Char :=
  let dflt := tag ++ ": ".toList
  let msg := if userMsg = [] then dflt else userMsg
  if vDigitMatch msg then msg else tag ++ (": ".toList ++ msg)

/-- C9: when the release tag matches `v<digit>…` (as every tag built from a
numeric version does), the commit message always begins with `v` followed by
a digit; a non-matching operator message gets the tag and `": "` prepended,
and an empty reply yields the tag-derived default. -/
theorem commit_message_tag_invariant (tag user : List Char)
    (h : vDigitMatch tag = true) :
    vDigitMatch (commitMessage tag user) = true ∧
    (user = [] → commitMessage tag user = tag ++ ": ".toList) ∧
    (user ≠ [] → vDigitMatch user = false →
      commitMessage tag user = tag ++ (": ".toList ++ user)) := by
  cases tag with
  | nil => exact absurd h (by simp [vDigitMatch])
  | cons a t =>
    cases t with
    | nil => exact absurd h (by simp [vDigitMatch])
    | cons b r =>
      have hd : vDigitMatch ((a :: b :: r) ++ ": ".toList) = true := by
        simpa [vDigitMatch] using h
      refine ⟨?_, ?_, ?_⟩
      · unfold commitMessage
        by_cases hu : user = [] <;> by_cases hv : vDigitMatch user = true <;>
          simp_all [vDigitMatch]
      · intro hu
        subst hu
        unfold commitMessage
        split_ifs <;> simp_all
      · intro hu hv
        unfold commitMessage
        split_ifs <;> simp_all

theorem commit_message_tag_invariant_witness :
    vDigitMatch "v1.2.4".toList = true ∧
    vDigitMatch (commitMessage "v1.2.4".toList "fix resize bug".toList) = true :=
  ⟨by decide,
    (commit_message_tag_invariant "v1.2.4".toList "fix resize bug".toList
      (by decide)).1⟩

/-- Result of the run-discovery loop: the run id found at a query index
together with the time slept so far (10 units per unsuccessful attempt), or a
timed-out `die` once the attempt bound is exhausted. -/
inductive DiscoverResult
  | found (id : Nat) (attemptIdx : Nat) (slept : Nat)
  | timedOut
deriving DecidableEq

/-- Models the run-discovery loop of `cmd_monitor` (lines 127–144): query the
CI provider; on success leave the loop with the run id; on failure count the
attempt, `die` once `max_attempts` failures have occurred, otherwise
`sleep 10` and retry.  `poll i` is the result of the `(i+1)`-th query; `fuel`
is the number of failures still allowed before the `die`. -/
def discoverLoop (poll : Nat → Option Nat) : Nat → Nat → DiscoverResult
  | 0, _ => .timedOut
  | fuel + 1, q =>
    match poll q with
    | some id => .found id q (10 * q)
    | none => discoverLoop poll fuel (q + 1)

/-- The loop as invoked: `attempts=0`, `max_attempts=30`. -/
def cmdMonitorFindRun (poll : Nat → Option Nat) : DiscoverResult :=
  discoverLoop poll 30 0

theorem discoverLoop_spec (poll : Nat → Option Nat) (fuel : Nat) :
    ∀ q : Nat,
      (∃ i id, i < fuel ∧ poll (q + i) = some id ∧
        (∀ j, j < i → poll (q + j) = none) ∧
        discoverLoop poll fuel q = .found id (q + i) (10 * (q + i))) ∨
      ((∀ i, i < fuel → poll (q + i) = none) ∧
        discoverLoop poll fuel q = .timedOut) := by
  induction fuel with
  | zero =>
    intro q
    exact Or.inr ⟨fun i hi => absurd hi (Nat.not_lt_zero i), rfl⟩
  | succ fuel ih =>
    intro q
    cases hp : poll q with
    | some id =>
      refine Or.inl ⟨0, id, Nat.succ_pos fuel, by simpa using hp,
        fun j hj => absurd hj (Nat.not_lt_zero j), ?_⟩
      simp [discoverLoop, hp]
    | none =>
      rcases ih (q + 1) with ⟨i, id, hi, hpi, hall, heq⟩ | ⟨hall, heq⟩
      · refine Or.inl ⟨i + 1, id, Nat.succ_lt_succ hi, ?_, ?_, ?_⟩
        · rw [show q + (i + 1) = q + 1 + i by omega]
          exact hpi
        · intro j hj
          cases j with
          | zero => simpa using hp
          | succ j =>
            rw [show q + (j + 1) = q + 1 + j by omega]
            exact hall j (Nat.lt_of_succ_lt_succ hj)
        · rw [show discoverLoop poll (fuel + 1) q = discoverLoop poll fuel (q + 1) by
            simp [discoverLoop, hp], heq]
          congr 1 <;> omega
      · refine Or.inr ⟨?_, ?_⟩
        · intro i hi
          cases i with
          | zero => simpa using hp
          | succ i =>
            rw [show q + (i + 1) = q + 1 + i by omega]
            exact hall i (Nat.lt_of_succ_lt_succ hi)
        · rw [show discoverLoop poll (fuel + 1) q = discoverLoop poll fuel (q + 1) by
            simp [discoverLoop, hp]]
          exact heq

/-- C7: the discovery loop polls on a fixed 10-unit cadence with at most 30
unsuccessful attempts: for every sequence of poll results it either returns
the run id of the first successful query (within 30 queries, having slept 10
units per preceding failure) or, once all 30 attempts have failed, terminates
with the timeout `die`. -/
theorem ci_run_discovery_bounded (poll : Nat → Option Nat) :
    (∃ i id, i < 30 ∧ poll i = some id ∧ (∀ j, j < i → poll j = none) ∧
      cmdMonitorFindRun poll = .found id i (10 * i)) ∨
    ((∀ i, i < 30 → poll i = none) ∧ cmdMonitorFindRun poll = .timedOut) := by
  have h := discoverLoop_spec poll 30 0
  simpa [cmdMonitorFindRun] using h

theorem startsWithSeq_iff (p : List Char) : ∀ l : List Char,
    (startsWithSeq p l = true ↔ p <+: l) := by
  induction p with
  | nil => intro l; simp [startsWithSeq, List.nil_prefix]
  | cons a as ih =>
    intro l
    cases l with
    | nil => simp [startsWithSeq, List.prefix_nil]
    | cons b bs =>
      simp [startsWithSeq, List.cons_prefix_cons, ih bs]

theorem substrOf_iff (n : List Char) : ∀ h : List Char,
    (substrOf n h = true ↔ n <:+: h) := by
  intro h
  induction h with
  | nil =>
    cases n with
    | nil => simp [substrOf, startsWithSeq, List.infix_nil]
    | cons c cs => simp [substrOf, startsWithSeq, List.infix_nil]
  | cons c t ih =>
    simp only [substrOf, Bool.or_eq_true, startsWithSeq_iff, ih]
    exact (List.infix_cons_iff).symm

/-- The expected-artifact manifest of the pipeline (lines 24–30). -/
def EXPECTED_ARTIFACTS : List (List Char) :=
  ["shelldeck-linux-x86_64.tar.gz".toList,
   "shelldeck-macos-aarch64.zip".toList,
   "shelldeck-windows-x86_64.zip".toList,
   "ShellDeck-x86_64.AppImage".toList,
   "SHA256SUMS.txt".toList]

/-- The lines of `echo "$assets"`: an empty asset set still produces one empty
line. -/
def assetsLines (assets : List (List Char)) : List (List Char) :=
  if assets.isEmpty then [[]] else assets

/-- Models `echo "$assets" | grep -qF "$expected"`: the expected name occurs
as a fixed-string substring of some asset line. -/
def artifactFound (e : List Char) (assets : List (List Char)) : Bool :=
  (assetsLines assets).any fun a => substrOf e a

/-- Result of the `cmd_check` artifact verification. -/
structure CheckResult where
  found : Nat
  missing : List (List Char)
  extra : List (List Char)
  overallOk : Bool
deriving DecidableEq

/-- Models `cmd_check` (lines 242–318): each expected artifact is counted as
found or missing by the `grep -qF` containment test; assets equal to no
expected name (extra artifacts) are listed but only printed; the two
reachability probes contribute their HTTP status codes; `all_ok` starts true
and is cleared by any missing artifact and by any non-200 probe. -/
def cmdCheckVerify (expected actual : List (List Char))
    (linuxCode macosCode : Nat) : CheckResult :=
  let missing := expected.filter fun e => !(artifactFound e actual)
  let found := (expected.filter fun e => artifactFound e actual).length
  let extra := (assetsLines actual).filter fun a =>
    !(expected.contains a) && !(a.isEmpty)
  let ok := missing.isEmpty && (linuxCode == 200) && (macosCode == 200)
  ⟨found, missing, extra, ok⟩

/-- C4: verification reports `overallOk = true` iff no expected artifact is
missing and both reachability probes return HTTP 200 — extra artifacts never
make it false — and on expected `[A,B,C]` against actual `[A,C]` it reports
found 2, missing `{B}`, `overallOk = false`. -/
theorem verification_overall_ok_iff :
    (∀ (expected actual : List (List Char)) (lc mc : Nat),
      ((cmdCheckVerify expected actual lc mc).overallOk = true ↔
        (cmdCheckVerify expected actual lc mc).missing = [] ∧
          lc = 200 ∧ mc = 200)) ∧
    cmdCheckVerify ["A".toList, "B".toList, "C".toList]
        ["A".toList, "C".toList] 200 200 =
      ⟨2, ["B".toList], [], false⟩ := by
  constructor
  · intro expected actual lc mc
    unfold cmdCheckVerify
    simp [List.isEmpty_iff, and_assoc]
  · decide

/-- C10: artifact presence is decided by fixed-string substring containment,
not exact equality — an expected name is counted as found, and excluded from
the missing set, exactly when it occurs as a substring of some asset name;
in particular a name contained in (but not equal to) an asset name counts as
found. -/
theorem artifact_presence_by_substring (e : List Char)
    (assets : List (List Char)) (he : e ≠ []) :
    (artifactFound e assets = true ↔ ∃ a ∈ assets, e <:+: a) ∧
    (∀ (expected : List (List Char)) (lc mc : Nat), e ∈ expected →
      (e ∉ (cmdCheckVerify expected assets lc mc).missing ↔
        ∃ a ∈ assets, e <:+: a)) ∧
    (artifactFound "SHA256SUMS.txt".toList ["SHA256SUMS.txt.asc".toList] = true ∧
      "SHA256SUMS.txt".toList ∉ (["SHA256SUMS.txt.asc".toList] : List (List Char))) := by
  have hfound : artifactFound e assets = true ↔ ∃ a ∈ assets, e <:+: a := by
    unfold artifactFound assetsLines
    by_cases ha : assets.isEmpty
    · rw [if_pos ha]
      rw [List.isEmpty_iff] at ha
      subst ha
      cases e with
      | nil => exact absurd rfl he
      | cons c cs => simp [substrOf, startsWithSeq]
    · rw [if_neg ha, List.any_eq_true]
      constructor
      · rintro ⟨a, hmem, hsub⟩
        exact ⟨a, hmem, (substrOf_iff e a).mp hsub⟩
      · rintro ⟨a, hmem, hinf⟩
        exact ⟨a, hmem, (substrOf_iff e a).mpr hinf⟩
  refine ⟨hfound, ?_, by decide, by decide⟩
  intro expected lc mc hmem
  have hnm : e ∉ (cmdCheckVerify expected assets lc mc).missing ↔
      artifactFound e assets = true := by
    unfold cmdCheckVerify
    simp [List.mem_filter, hmem]
  rw [hnm, hfound]

theorem artifact_presence_by_substring_witness :
    artifactFound "SHA256SUMS.txt".toList ["SHA256SUMS.txt.asc".toList] = true :=
  ((artifact_presence_by_substring "SHA256SUMS.txt".toList
      ["SHA256SUMS.txt.asc".toList] (by decide)).2.2).1
